import Mathlib

/- Shallow embedding of the typescriptle word comparators:
   the refined occurrence-budgeted comparator of src/unnamed/part_000 and the
   simple "contains character anywhere" comparator of src/typescriptle.d.ts,
   together with the GuessWord/Guess session wrapper.

   TypeScript string-literal types become Char and List Char.  The verdict
   string types (CharacterAtCorrectPosition ` 🟩 c `, CharacterFound ` 🟨 c `,
   CharacterNotFound ` ⬛ c `) become an inductive carrying the character they
   refer to. -/

namespace Typescriptle

/-- Verdict for one guess position: CharacterAtCorrectPosition (green square),
CharacterFound (yellow square) and CharacterNotFound (black square), each
carrying the character it refers to. -/
inductive Verdict where
  | correct (c : Char)
  | present (c : Char)
  | absent (c : Char)
deriving DecidableEq, Repr

/-- Keys of the PossibleIterations table: the supported indexes 0 to 4 and the
OUT_OF_BOUNDS key. -/
inductive IterKey where
  | k0
  | k1
  | k2
  | k3
  | k4
  | oob
deriving DecidableEq, Repr

/-- An entry of the PossibleIterations table: the current index value and the
key of the next entry. -/
structure Iteration where
  value : Int
  next : IterKey
deriving DecidableEq, Repr

/-- PossibleIterations: the fixed finite iteration table of the source, a
linked list over the indexes 0 to 4 whose OUT_OF_BOUNDS entry stores -1 and
links to itself. -/
def PossibleIterations : IterKey → Iteration
  | .k0 => ⟨0, .k1⟩
  | .k1 => ⟨1, .k2⟩
  | .k2 => ⟨2, .k3⟩
  | .k3 => ⟨3, .k4⟩
  | .k4 => ⟨4, .oob⟩
  | .oob => ⟨-1, .oob⟩

/-- IterationOf utility type. -/
def IterationOf (k : IterKey) : Iteration := PossibleIterations k

/-- IterationValue utility type. -/
def IterationValue (i : Iteration) : Int := i.value

/-- NextIteration utility type: the table entry named by the current entry's
second component. -/
def NextIteration (i : Iteration) : Iteration := PossibleIterations i.next

/-- NumberToTuple: a tuple of Replacement entries (modelled as `true`) whose
length is the given number, one longer when IsLengthInclusive.  The source
builds the tuple by consing onto an accumulator started at `[]` until the
accumulator's length reaches the number, which from `[]` yields exactly this
replicate. -/
def NumberToTuple (t : Nat) (isLengthInclusive : Bool) : List Bool :=
  if isLengthInclusive then List.replicate (t + 1) true else List.replicate t true

/-- ArrayKeyList/KeyUnion: the union of index keys of a tuple.  TypeScript
produces the decimal strings of the indexes; membership of a number's decimal
string among them is equivalent to membership of the number among the indexes
0 to length - 1, which is how we model the union. -/
def KeyUnion (l : List Bool) : List Nat := List.range l.length

/-- GreaterThanOrEqual of the source: true unless T occurs among the keys of
NumberToTuple R, i.e. unless T < R. -/
def GreaterThanOrEqual (t r : Nat) : Bool :=
  !((KeyUnion (NumberToTuple r false)).contains t)

/-- GreaterThan of the source: true unless T occurs among the keys of the
length-inclusive tuple of R, i.e. unless T ≤ R. -/
def GreaterThan (t r : Nat) : Bool :=
  !((KeyUnion (NumberToTuple r true)).contains t)

/-- GetAllCharacterOccurrences: one `true` entry per element of the list equal
to Character. -/
def GetAllCharacterOccurrences (c : Char) : List Char → List Bool
  | [] => []
  | head :: tail =>
    if c = head then true :: GetAllCharacterOccurrences c tail
    else GetAllCharacterOccurrences c tail

/-- SliceStartingAt: the source checks `List extends [...NumberToTuple I any,
...Rest]` and returns Rest on success and List otherwise.  For a nonnegative
index this drops the first `i` elements when the list is long enough and
returns the list unchanged otherwise.  A negative index arises only through
the OUT_OF_BOUNDS iteration (value -1); there NumberToTuple has no normal
form, the compiler reports an excessive-depth diagnostic and recovers with an
uninferred rest element in which the downstream occurrence and exact-match
scans find no characters (the behaviour pinned by the source's suppressed
five-letter test T90); we model that recovered value as the empty list. -/
def SliceStartingAt (i : Int) (l : List α) : List α :=
  if i < 0 then []
  else if i.toNat ≤ l.length then l.drop i.toNat
  else l

/-- SliceUpTo: returns the first `i` elements when the list has at least `i`
of them and the whole list otherwise (the source's GreaterThanOrEqual guard on
the list length fails in that case).  For a negative index (OUT_OF_BOUNDS
iteration) the guard's NumberToTuple has no normal form and the compiler
recovers on the guard's failing branch, returning the list unchanged. -/
def SliceUpTo (i : Int) (l : List α) : List α :=
  if i < 0 then l
  else if i.toNat ≤ l.length then l.take i.toNat
  else l

/-- GetCharacterOccurrencesAfterIndex: the number of occurrences of Character
in the slice of the list starting at the next iteration's value.  The
out-of-bounds guard of the source tests whether the next iteration's value is
a number; every entry of PossibleIterations stores a number (the OUT_OF_BOUNDS
entry stores -1), so the guard always succeeds and the branch returning the
string '"out of bounds, cannot compute"' (modelled as `none`) is
unreachable. -/
def GetCharacterOccurrencesAfterIndex (c : Char) (l : List Char) (i : Iteration) :
    Option Nat :=
  some (GetAllCharacterOccurrences c
    (SliceStartingAt (IterationValue (NextIteration i)) l)).length

/-- GetCharacterOccurrencesBeforeIndex: the number of occurrences of Character
in the slice of the list up to the current iteration's value. -/
def GetCharacterOccurrencesBeforeIndex (c : Char) (l : List Char) (i : Iteration) :
    Nat :=
  (GetAllCharacterOccurrences c (SliceUpTo (IterationValue i) l)).length

/-- GetExactMatches: one entry per index at which both lists carry
Character. -/
def GetExactMatches (c : Char) : List Char → List Char → List Bool
  | th :: tt, rh :: rt =>
    if c = th ∧ c = rh then true :: GetExactMatches c tt rt
    else GetExactMatches c tt rt
  | _, _ => []

/-- CastToNumber models `T extends number ? T : number`.  The `none` case
widens to the plain type `number`; it never arises because the out-of-bounds
branch of GetCharacterOccurrencesAfterIndex is unreachable, so the default
value chosen here is irrelevant. -/
def CastToNumber (x : Option Nat) : Nat := x.getD 0

/-- LowercaseString: the intrinsic Lowercase on a single character. -/
def LowercaseString (c : Char) : Char := c.toLower

/-- ComputeCounts: occurrences of CurrentCharacter in the full solution and
the full guess, after and before the current iteration's index, in the
source's order (solution after, solution before, guess after, guess
before). -/
def ComputeCounts (c : Char) (fullSolution fullGuess : List Char) (i : Iteration) :
    Nat × Nat × Nat × Nat :=
  (CastToNumber (GetCharacterOccurrencesAfterIndex c fullSolution i),
   GetCharacterOccurrencesBeforeIndex c fullSolution i,
   CastToNumber (GetCharacterOccurrencesAfterIndex c fullGuess i),
   GetCharacterOccurrencesBeforeIndex c fullGuess i)

/-- NonExactVerdict: the conditional tree CompareWords applies to a non-exact
position, literally following the source's branches on the four counts and the
number of exact matches from the current index on. -/
def NonExactVerdict (c : Char) (counts : Nat × Nat × Nat × Nat)
    (numberOfExactMatches : Nat) : Verdict :=
  match counts with
  | (solutionCharactersAfter, solutionCharactersBefore,
     guessCharactersAfter, guessCharactersBefore) =>
    if GreaterThan solutionCharactersBefore 0 then
      if GreaterThan solutionCharactersBefore guessCharactersBefore
          || GreaterThan solutionCharactersAfter numberOfExactMatches then
        Verdict.present c
      else
        Verdict.absent c
    else if GreaterThan solutionCharactersAfter 0 then
      if GreaterThanOrEqual solutionCharactersAfter guessCharactersAfter then
        if GreaterThan solutionCharactersAfter guessCharactersBefore
            && GreaterThan solutionCharactersAfter numberOfExactMatches then
          Verdict.present c
        else
          Verdict.absent c
      else if GreaterThan solutionCharactersAfter numberOfExactMatches then
        Verdict.present c
      else
        Verdict.absent c
    else
      Verdict.absent c

/-- CompareWords, the refined comparator of src/unnamed/part_000.  The
recursion consumes the current guess and solution character lists in lockstep
while the full solution, full guess and the iteration index are threaded
through; the sliced lists and the exact-match count are the source's
precomputed default type arguments.  ComputeCounts always produces a
four-tuple (CastToNumber widens even a failed count to a number), so the
InvalidCase branch of the source is unreachable and has no counterpart
here. -/
def CompareWords : List Char → List Char → List Char → List Char → Iteration → List Verdict
  | currentGuessCharacter :: guessTail,
    currentSolutionCharacter :: solutionTail,
    fullSolution, fullGuess, currentIteration =>
    let slicedGuess := SliceStartingAt (IterationValue currentIteration) fullGuess
    let slicedSolution := SliceStartingAt (IterationValue currentIteration) fullSolution
    let numberOfExactMatches :=
      (GetExactMatches (LowercaseString currentGuessCharacter)
        slicedGuess slicedSolution).length
    if LowercaseString currentGuessCharacter = currentSolutionCharacter then
      Verdict.correct (LowercaseString currentGuessCharacter) ::
        CompareWords guessTail solutionTail fullSolution fullGuess
          (NextIteration currentIteration)
    else
      NonExactVerdict (LowercaseString currentGuessCharacter)
          (ComputeCounts (LowercaseString currentGuessCharacter)
            fullSolution fullGuess currentIteration)
          numberOfExactMatches ::
        CompareWords guessTail solutionTail fullSolution fullGuess
          (NextIteration currentIteration)
  | _, _, _, _, _ => []

/-- CompareWordsTop: the comparator entry point with the source's default type
arguments (full solution and full guess default to the current lists, the
iteration starts at index 0). -/
def CompareWordsTop (guess solution : List Char) : List Verdict :=
  CompareWords guess solution solution guess (IterationOf IterKey.k0)

/-- ContainsCharacter of the simple comparator (src/typescriptle.d.ts):
CharacterFound as soon as the character occurs anywhere in the word,
CharacterNotFound when the word is exhausted. -/
def ContainsCharacter (splitWord : List Char) (characterToSearchFor : Char) : Verdict :=
  match splitWord with
  | currentCharacter :: restOfWord =>
    if characterToSearchFor = currentCharacter then
      Verdict.present characterToSearchFor
    else
      ContainsCharacter restOfWord characterToSearchFor
  | [] => Verdict.absent characterToSearchFor

/-- SimpleCompareWords, the single-pass comparator of src/typescriptle.d.ts:
an exact position is CharacterAtCorrectPosition, any other position is decided
by ContainsCharacter over the full solution.  No case normalization and no
occurrence budget. -/
def SimpleCompareWords : List Char → List Char → List Char → List Verdict
  | currentGuessedLetter :: restOfGuessedWord,
    currentSolutionLetter :: restOfSolution,
    fullSolutionCharacterList =>
    (if currentGuessedLetter = currentSolutionLetter then
       Verdict.correct currentGuessedLetter
     else
       ContainsCharacter fullSolutionCharacterList currentGuessedLetter) ::
      SimpleCompareWords restOfGuessedWord restOfSolution fullSolutionCharacterList
  | _, _, _ => []

/-- SimpleCompareTop: the simple comparator with its default full solution. -/
def SimpleCompareTop (guess solution : List Char) : List Verdict :=
  SimpleCompareWords guess solution solution

/-- Modelled from the spec: SpecExactMatches counts the positions at which
both the guess and the solution carry the character (spec 4.1 step 2's
exactMatches for that character value). -/
def SpecExactMatches (g s : List Char) (c : Char) : Nat :=
  (g.zip s).countP (fun p => p.1 == c && p.2 == c)

/-- Modelled from the spec: SpecScan is the left-to-right scan of spec 4.1
step 3 over the zipped guess/solution positions, carrying the list of
characters already claimed as Present at earlier non-exact positions.  A
non-exact position with character c is Present exactly when exactMatches c
plus claimed c is strictly below the occurrences of c in the solution. -/
def SpecScan (g s : List Char) : List (Char × Char) → List Char → List Verdict
  | [], _ => []
  | (gc, sc) :: rest, claimedList =>
    if gc = sc then
      Verdict.correct gc :: SpecScan g s rest claimedList
    else if SpecExactMatches g s gc + claimedList.count gc < s.count gc then
      Verdict.present gc :: SpecScan g s rest (gc :: claimedList)
    else
      Verdict.absent gc :: SpecScan g s rest claimedList

/-- Modelled from the spec: SpecCompare is the comparison algorithm as spec
section 4.1 words it, to be compared with the source's CompareWords: both
words are lowercased, exact positions are Correct and final, and every other
position is classified by the occurrence-budget rule of SpecScan. -/
def SpecCompare (guess solution : List Char) : List Verdict :=
  let g := guess.map Char.toLower
  let s := solution.map Char.toLower
  SpecScan g s (g.zip s) []

/-- A row of the session grid: the EmptyWordPlaceholder of n blank squares,
the InvalidWord marker, or a joined comparison result. -/
inductive Row where
  | blanks (n : Nat)
  | invalidWord
  | verdicts (vs : List Verdict)
deriving DecidableEq, Repr

/-- EmptyWordPlaceholder: the source's fixed placeholder string holds five
blank squares. -/
def EmptyWordPlaceholder : Row := Row.blanks 5

/-- ValidWord: membership of the word in the word list.  Modelled from the
spec: the word list itself (src imports it from ./wordlist, which is not part
of the sources) is an externally supplied collection of valid words, passed
here as a parameter. -/
def ValidWord (wordList : List (List Char)) (word : List Char) : Bool :=
  wordList.contains word

/-- GuessWord: an empty guess gives the EmptyWordPlaceholder, a guess whose
lowercase form is in the word list gives the comparison against the solution
(the guess is lowercased before splitting and comparing), and any other guess
gives the InvalidWord marker.  Modelled from the spec: the solution word
(src/unnamed/part_000 reads it as WordList[WordNumber] from ./config, not part
of the sources) is an externally chosen element of the word list, passed here
as a parameter. -/
def GuessWord (wordList : List (List Char)) (solution : List Char)
    (guess : List Char) : Row :=
  if guess = [] then
    EmptyWordPlaceholder
  else if ValidWord wordList (guess.map Char.toLower) then
    Row.verdicts (CompareWordsTop (guess.map Char.toLower) solution)
  else
    Row.invalidWord

/-- The six guess slots of the entry type Guess.  The source's slots are
Maybe string; the shipped game fills unused slots with the empty string, which
is the EmptySlot state, so each slot is modelled as a character list. -/
structure GuessInput where
  s1 : List Char
  s2 : List Char
  s3 : List Char
  s4 : List Char
  s5 : List Char
  s6 : List Char

/-- The six result rows of the entry type Guess. -/
structure GuessOutput where
  r1 : Row
  r2 : Row
  r3 : Row
  r4 : Row
  r5 : Row
  r6 : Row
deriving DecidableEq, Repr

/-- Guess: the entry type, applying GuessWord to each of the six slots
independently against the one fixed word list and solution. -/
def Guess (wordList : List (List Char)) (solution : List Char)
    (t : GuessInput) : GuessOutput :=
  ⟨GuessWord wordList solution t.s1,
   GuessWord wordList solution t.s2,
   GuessWord wordList solution t.s3,
   GuessWord wordList solution t.s4,
   GuessWord wordList solution t.s5,
   GuessWord wordList solution t.s6⟩

/-- CompareNormalized: the comparison GuessWord performs on a valid guess,
with the source's normalization step in front (the guess is lowercased before
it is split and compared). -/
def CompareNormalized (guess solution : List Char) : List Verdict :=
  CompareWordsTop (guess.map Char.toLower) solution

/-- ClaimedVerdicts: the number of positions of a result whose verdict is
Correct or Present for the given character value. -/
def ClaimedVerdicts (c : Char) (l : List Verdict) : Nat :=
  l.countP (fun v =>
    match v with
    | .correct d => d == c
    | .present d => d == c
    | .absent _ => false)

/-- Normalized: every character of the word is its own lowercase form, the
spec's data-model requirement on Characters. -/
def Normalized (w : List Char) : Prop := ∀ c ∈ w, c.toLower = c

/-- GreaterThanOrEqual computes the boolean of r ≤ t. -/
theorem GreaterThanOrEqual_eq (t r : Nat) : GreaterThanOrEqual t r = decide (r ≤ t) := by
  by_cases h : r ≤ t
  · have h2 : ¬t < r := Nat.not_lt.mpr h
    simp [GreaterThanOrEqual, KeyUnion, NumberToTuple, List.contains, h, h2]
  · have h2 : t < r := Nat.lt_of_not_le h
    simp [GreaterThanOrEqual, KeyUnion, NumberToTuple, List.contains, h, h2]

/-- GreaterThan computes the boolean of r < t. -/
theorem GreaterThan_eq (t r : Nat) : GreaterThan t r = decide (r < t) := by
  by_cases h : r < t
  · have h2 : ¬t < r + 1 := by omega
    simp [GreaterThan, KeyUnion, NumberToTuple, List.contains, h, h2]
  · have h2 : t < r + 1 := by omega
    simp [GreaterThan, KeyUnion, NumberToTuple, List.contains, h, h2]

/-- CompareWords on an empty guess or an empty solution gives the empty
result. -/
theorem CompareWords_nil (g s fs fg : List Char) (it : Iteration)
    (h : g = [] ∨ s = []) : CompareWords g s fs fg it = [] := by
  rcases h with h | h
  · subst h
    cases s <;> rfl
  · subst h
    cases g <;> rfl

/-- CompareWords on two nonempty lists is the head verdict followed by the
comparison of the tails at the next iteration. -/
theorem CompareWords_cons (g s : Char) (gt st fs fg : List Char) (it : Iteration) :
    CompareWords (g :: gt) (s :: st) fs fg it =
      (if LowercaseString g = s then
         Verdict.correct (LowercaseString g)
       else
         NonExactVerdict (LowercaseString g)
           (ComputeCounts (LowercaseString g) fs fg it)
           ((GetExactMatches (LowercaseString g)
              (SliceStartingAt (IterationValue it) fg)
              (SliceStartingAt (IterationValue it) fs)).length)) ::
      CompareWords gt st fs fg (NextIteration it) := by
  rw [CompareWords]
  split <;> rfl

/-- CompareWords produces one verdict per position of the shorter word. -/
theorem CompareWords_length (g : List Char) :
    ∀ (s fs fg : List Char) (it : Iteration),
      (CompareWords g s fs fg it).length = min g.length s.length := by
  induction g with
  | nil =>
    intro s fs fg it
    rw [CompareWords_nil _ _ _ _ _ (Or.inl rfl)]
    simp
  | cons gh gt ih =>
    intro s fs fg it
    cases s with
    | nil =>
      rw [CompareWords_nil _ _ _ _ _ (Or.inr rfl)]
      simp
    | cons sh st =>
      rw [CompareWords_cons]
      simp only [List.length_cons, ih]
      omega

/-- Exact positions of CompareWords: whenever the lowercase guess character at
index i equals the solution character there, the verdict at index i is Correct
with that character, for any full lists and any iteration. -/
theorem CompareWords_getElem_correct (g : List Char) :
    ∀ (s fs fg : List Char) (it : Iteration) (i : Nat)
      (hg : i < g.length) (hs : i < s.length),
      (g.get ⟨i, hg⟩).toLower = s.get ⟨i, hs⟩ →
      (CompareWords g s fs fg it)[i]? =
        some (Verdict.correct ((g.get ⟨i, hg⟩).toLower)) := by
  induction g with
  | nil =>
    intro s fs fg it i hg hs hx
    exact absurd hg (by simp)
  | cons gh gt ih =>
    intro s fs fg it i hg hs hx
    cases s with
    | nil => exact absurd hs (by simp)
    | cons sh st =>
      rw [CompareWords_cons]
      cases i with
      | zero =>
        simp only [List.get] at hx
        simp [LowercaseString, hx]
      | succ n =>
        simp only [List.get] at hx
        have hg2 : n < gt.length := by simpa using hg
        have hs2 : n < st.length := by simpa using hs
        simpa using ih st fs fg (NextIteration it) n hg2 hs2 hx

/-- Self comparison of a normalized word takes the exact branch at every
position. -/
theorem CompareWords_self (w : List Char) :
    ∀ (fs fg : List Char) (it : Iteration), Normalized w →
      CompareWords w w fs fg it = w.map Verdict.correct := by
  induction w with
  | nil =>
    intro fs fg it h
    rfl
  | cons c t ih =>
    intro fs fg it h
    have hc : c.toLower = c := h c (by simp)
    rw [CompareWords_cons]
    rw [if_pos (by simp [LowercaseString, hc])]
    have ht : Normalized t := fun x hx => h x (List.mem_cons_of_mem _ hx)
    simp [LowercaseString, hc, ih fs fg (NextIteration it) ht]

/-- Reading back the code point of a character built from a valid code
point. -/
theorem char_toNat_ofNat (n : Nat) (h : n.isValidChar) : (Char.ofNat n).toNat = n := by
  simp [Char.ofNat, h, Char.ofNatAux, Char.toNat, UInt32.toNat]

/-- Lowercasing after uppercasing is plain lowercasing: an uppercased lower
case letter returns to itself and every other character is untouched by
toUpper. -/
theorem char_toLower_toUpper (c : Char) : c.toUpper.toLower = c.toLower := by
  by_cases h : c.toNat ≥ 97 ∧ c.toNat ≤ 122
  · have hvalid : (c.toNat - 32).isValidChar := Or.inl (by omega)
    have h1 : c.toUpper = Char.ofNat (c.toNat - 32) := by
      rw [Char.toUpper]
      exact if_pos h
    have h2 : c.toUpper.toNat = c.toNat - 32 := by
      rw [h1]
      exact char_toNat_ofNat _ hvalid
    have h3 : c.toUpper.toLower = Char.ofNat (c.toUpper.toNat + 32) := by
      rw [Char.toLower]
      refine if_pos ?_
      rw [h2]
      omega
    rw [h3, h2]
    have h4 : c.toNat - 32 + 32 = c.toNat := by omega
    rw [h4, Char.ofNat_toNat]
    rw [Char.toLower]
    rw [if_neg (by omega)]
  · have h1 : c.toUpper = c := by
      rw [Char.toUpper]
      exact if_neg h
    rw [h1]

/-- Setting an index of a list to the element already there changes
nothing. -/
theorem list_set_get_self (l : List Char) (i : Nat) (h : i < l.length) :
    l.set i (l.get ⟨i, h⟩) = l := by
  apply List.ext_getElem
  · simp
  · intro j hj hj2
    rw [List.getElem_set]
    split
    · rename_i heq
      subst heq
      rfl
    · rfl

/- Checks of the source's own type tests, reproduced on the embedding. -/

example : CompareWordsTop ['a', 'b', 'c'] ['a', 'b', 'c'] =
    [.correct 'a', .correct 'b', .correct 'c'] := by decide

example : CompareWordsTop ['a', 'B', 'c'] ['a', 'b', 'c'] =
    [.correct 'a', .correct 'b', .correct 'c'] := by decide

example : CompareWordsTop ['a', 'b', 'c'] ['a', 'x', 'c'] =
    [.correct 'a', .absent 'b', .correct 'c'] := by decide

example : CompareWordsTop ['a', 'a', 'c'] ['b', 'b', 'a'] =
    [.present 'a', .absent 'a', .absent 'c'] := by decide

example : CompareWordsTop ['a', 'x', 'a'] ['a', 'a', 'b'] =
    [.correct 'a', .absent 'x', .present 'a'] := by decide

example : CompareWordsTop ['m', 'o', 'u', 't', 'h'] ['a', 'c', 'h', 'e', 's'] =
    [.absent 'm', .absent 'o', .absent 'u', .absent 't', .present 'h'] := by decide

/-- C1: the character-budget invariant fails on the code.  For the guess
"aaab" against the solution "abba" the comparator marks the first a Correct
and both other a positions Present, three Correct-or-Present verdicts for a
character that occurs only twice in the solution: at position 2 the branch for
a character seen earlier in the solution grants Present because an unclaimed a
remains in the solution suffix, ignoring that position 1 already claimed
it. -/
theorem c1_budget_violation_at_failing_input :
    CompareWordsTop ['a', 'a', 'a', 'b'] ['a', 'b', 'b', 'a'] =
      [.correct 'a', .present 'a', .present 'a', .present 'b']
    ∧ ClaimedVerdicts 'a' (CompareWordsTop ['a', 'a', 'a', 'b'] ['a', 'b', 'b', 'a']) = 3
    ∧ (['a', 'b', 'b', 'a'] : List Char).count 'a' = 2 := by
  decide

/-- C2: the comparator's Present/Absent classification diverges from the
spec's left-to-right occurrence-budget rule.  On the guess "aaab" against the
solution "abba" the spec rule gives Absent at position 2 (exactMatches 1 plus
claimed 1 is not below the two a occurrences of the solution) while the code
gives Present there. -/
theorem c2_classification_diverges_from_spec_rule :
    CompareWordsTop ['a', 'a', 'a', 'b'] ['a', 'b', 'b', 'a'] =
      [.correct 'a', .present 'a', .present 'a', .present 'b']
    ∧ SpecCompare ['a', 'a', 'a', 'b'] ['a', 'b', 'b', 'a'] =
      [.correct 'a', .present 'a', .absent 'a', .present 'b']
    ∧ CompareWordsTop ['a', 'a', 'a', 'b'] ['a', 'b', 'b', 'a'] ≠
      SpecCompare ['a', 'a', 'a', 'b'] ['a', 'b', 'b', 'a'] := by
  decide

/-- C3: at every position where the lowercased guess character equals the
solution character, the comparison result carries the Correct verdict for that
character; the verdict is produced by the exact-match branch alone, so no
later Present/Absent rule touches it. -/
theorem c3_exact_position_is_correct (guess solution : List Char)
    (hlen : guess.length = solution.length) (i : Nat)
    (hg : i < guess.length) (hs : i < solution.length)
    (hx : (guess.get ⟨i, hg⟩).toLower = solution.get ⟨i, hs⟩) :
    (CompareWordsTop guess solution)[i]? =
      some (Verdict.correct ((guess.get ⟨i, hg⟩).toLower)) :=
  CompareWords_getElem_correct guess solution solution guess
    (IterationOf IterKey.k0) i hg hs hx

/-- C3 witness: position 0 of the guess "Ab" against the solution "ac". -/
theorem c3_exact_position_is_correct_witness :
    (CompareWordsTop ['A', 'b'] ['a', 'c'])[0]? = some (Verdict.correct 'a') :=
  c3_exact_position_is_correct ['A', 'b'] ['a', 'c'] rfl 0
    (by decide) (by decide) (by decide)

/-- C4: the four concrete duplicate-letter scenarios of the spec, matching the
source's tests T40, T50, T70 and T80. -/
theorem c4_concrete_duplicate_scenarios :
    CompareWordsTop ['a', 'a', 'c'] ['a', 'b', 'b'] =
      [.correct 'a', .absent 'a', .absent 'c']
    ∧ CompareWordsTop ['a', 'a', 'c'] ['b', 'b', 'a'] =
      [.present 'a', .absent 'a', .absent 'c']
    ∧ CompareWordsTop ['a', 'x', 'a', 'f'] ['a', 'a', 'b', 'g'] =
      [.correct 'a', .absent 'x', .present 'a', .absent 'f']
    ∧ CompareWordsTop ['x', 'a', 'a', 'f'] ['a', 'b', 'b', 'a'] =
      [.absent 'x', .present 'a', .present 'a', .absent 'f'] := by
  decide

/-- C5 counterexample: comparing words of unequal length does not fail — there
is no LengthMismatch error anywhere in the comparator; the two-character guess
against a one-character solution yields a plain one-verdict result. -/
theorem c5_unequal_lengths_do_not_fail :
    CompareWordsTop ['a', 'b'] ['a'] = [Verdict.correct 'a'] := by
  decide

/-- C5 amended: the comparator silently truncates to the shorter word — the
result always has the length of the shorter of guess and solution — and
comparing two empty words returns the empty result. -/
theorem c5_truncation_and_empty :
    (∀ guess solution : List Char,
      (CompareWordsTop guess solution).length = min guess.length solution.length)
    ∧ CompareWordsTop [] [] = [] :=
  ⟨fun g s => CompareWords_length g s s g (IterationOf IterKey.k0), rfl⟩

/-- C6: the simple single-pass contains-character comparator and the refined
occurrence-budgeted comparator disagree on a pair with repeated letters: on
the guess "aac" against the solution "abb" the simple variant marks the second
a Present while the refined variant marks it Absent. -/
theorem c6_variants_disagree :
    ∃ guess solution : List Char,
      SimpleCompareTop guess solution ≠ CompareWordsTop guess solution :=
  ⟨['a', 'a', 'c'], ['a', 'b', 'b'], by decide⟩

/-- C7: for a five-character solution the session wrapper resolves every slot
locally: an empty slot becomes the placeholder row with one blank per solution
position, a non-empty guess outside the word list becomes the InvalidWord
marker row, a valid guess becomes the comparator's result for its lowercase
form, and the six slots of Guess are processed independently of each other. -/
theorem c7_session_rows (wordList : List (List Char)) (solution : List Char)
    (h5 : solution.length = 5) :
    GuessWord wordList solution [] = Row.blanks solution.length
    ∧ (∀ g : List Char, g ≠ [] →
        ValidWord wordList (g.map Char.toLower) = false →
        GuessWord wordList solution g = Row.invalidWord)
    ∧ (∀ g : List Char, g ≠ [] →
        ValidWord wordList (g.map Char.toLower) = true →
        GuessWord wordList solution g =
          Row.verdicts (CompareWordsTop (g.map Char.toLower) solution))
    ∧ (∀ t : GuessInput, Guess wordList solution t =
        ⟨GuessWord wordList solution t.s1, GuessWord wordList solution t.s2,
         GuessWord wordList solution t.s3, GuessWord wordList solution t.s4,
         GuessWord wordList solution t.s5, GuessWord wordList solution t.s6⟩) := by
  refine ⟨?_, ?_, ?_, ?_⟩
  · rw [h5]
    rfl
  · intro g hne hval
    simp [GuessWord, hne, hval]
  · intro g hne hval
    simp [GuessWord, hne, hval]
  · intro t
    rfl

/-- C7 witness: a one-word list with the solution "cigar"; the empty slot, the
invalid guess "z" and the valid guess "CIGAR". -/
theorem c7_session_rows_witness :
    GuessWord [['c', 'i', 'g', 'a', 'r']] ['c', 'i', 'g', 'a', 'r'] [] =
      Row.blanks 5
    ∧ GuessWord [['c', 'i', 'g', 'a', 'r']] ['c', 'i', 'g', 'a', 'r'] ['z'] =
      Row.invalidWord
    ∧ GuessWord [['c', 'i', 'g', 'a', 'r']] ['c', 'i', 'g', 'a', 'r']
        ['C', 'I', 'G', 'A', 'R'] =
      Row.verdicts (CompareWordsTop ['c', 'i', 'g', 'a', 'r'] ['c', 'i', 'g', 'a', 'r']) := by
  have h := c7_session_rows [['c', 'i', 'g', 'a', 'r']] ['c', 'i', 'g', 'a', 'r'] rfl
  exact ⟨h.1, h.2.1 ['z'] (by decide) (by decide),
    h.2.2.1 ['C', 'I', 'G', 'A', 'R'] (by decide) (by decide)⟩

/-- C8: the comparison performed on a guess (which is lowercased before it is
split and compared) is case insensitive: the guess "ABC" against the solution
"abc" gives the same verdicts as the guess "abc", and uppercasing the guess
character at any position leaves the comparison result unchanged. -/
theorem c8_case_insensitive :
    CompareNormalized ['A', 'B', 'C'] ['a', 'b', 'c'] =
      CompareNormalized ['a', 'b', 'c'] ['a', 'b', 'c']
    ∧ ∀ (guess solution : List Char) (i : Nat) (h : i < guess.length),
        CompareNormalized (guess.set i (guess.get ⟨i, h⟩).toUpper) solution =
          CompareNormalized guess solution := by
  constructor
  · decide
  · intro g s i h
    unfold CompareNormalized
    have hmap : (g.set i (g.get ⟨i, h⟩).toUpper).map Char.toLower = g.map Char.toLower := by
      rw [List.map_set, char_toLower_toUpper]
      have hi : i < (g.map Char.toLower).length := by simpa using h
      have hx : (g.get ⟨i, h⟩).toLower = (g.map Char.toLower).get ⟨i, hi⟩ := by
        simp [List.get_eq_getElem, List.getElem_map]
      rw [hx]
      exact list_set_get_self _ _ hi
    rw [hmap]

/-- C8 witness: uppercasing position 0 of the guess "ab" gives "Ab", compared
against the solution "ab". -/
theorem c8_case_insensitive_witness :
    CompareNormalized ['A', 'b'] ['a', 'b'] = CompareNormalized ['a', 'b'] ['a', 'b'] :=
  c8_case_insensitive.2 ['a', 'b'] ['a', 'b'] 0 (by decide)

/-- C9: comparing a normalized word against itself takes the exact-match
branch at every position, so every verdict is Correct. -/
theorem c9_self_comparison_all_correct (w : List Char) (h : Normalized w) :
    CompareWordsTop w w = w.map Verdict.correct :=
  CompareWords_self w w w (IterationOf IterKey.k0) h

/-- C9 witness: the word "cat" against itself. -/
theorem c9_self_comparison_all_correct_witness :
    CompareWordsTop ['c', 'a', 't'] ['c', 'a', 't'] =
      [Verdict.correct 'c', Verdict.correct 'a', Verdict.correct 't'] :=
  c9_self_comparison_all_correct ['c', 'a', 't'] (by intro c hc; fin_cases hc <;> rfl)

/-- C10 counterexample: at the OUT_OF_BOUNDS iteration (any position at index
5 or beyond) the occurrence-counting helper still returns a numeric count,
because its guard compares the next iteration's value — the number -1 — with
number and therefore always succeeds; the non-numeric branch is never
taken. -/
theorem c10_oob_helper_still_numeric :
    GetCharacterOccurrencesAfterIndex 'a' ['a', 'a', 'a', 'a', 'a', 'a']
      (IterationOf IterKey.oob) = some 0 := by
  decide

/-- C10 amended: the iteration table covers exactly the indexes 0 through 4
(every other entry is the OUT_OF_BOUNDS value -1), the fifth step from index 0
reaches OUT_OF_BOUNDS, and the occurrence-counting helper returns a numeric
count for every iteration, so its out-of-bounds branch — and with it the
comparator's error branch — is unreachable for every word length, not exactly
for lengths of at most five. -/
theorem c10_iteration_table_and_guard :
    (∀ k : IterKey, IterationValue (IterationOf k) = -1 ∨
      (0 ≤ IterationValue (IterationOf k) ∧ IterationValue (IterationOf k) ≤ 4))
    ∧ NextIteration (NextIteration (NextIteration (NextIteration (NextIteration
        (IterationOf IterKey.k0))))) = IterationOf IterKey.oob
    ∧ ∀ (c : Char) (l : List Char) (i : Iteration),
        ∃ n : Nat, GetCharacterOccurrencesAfterIndex c l i = some n := by
  refine ⟨?_, by decide, ?_⟩
  · intro k
    cases k <;> simp [IterationValue, IterationOf, PossibleIterations]
  · intro c l i
    exact ⟨_, rfl⟩

end Typescriptle
